import Mathlib

/-!
Shallow embedding of the dynamic-skills repository (src/dynamic_skills/:
tracker.py, observer.py, agent.py, skill.py).  Python strings are modelled
as lists of characters (`Str`), Python dicts as association lists, and the
filesystem, the OS and the reasoning engine as explicit inputs.
-/

/-- Python string, modelled as a list of characters (one `Char` per code
point; for offset bookkeeping a character also stands for one byte, which is
exact for the ASCII data involved there). -/
abbrev Str := List Char

/-- Whitespace recognised by Python's `str.strip` (ASCII subset). -/
def pyIsSpace (c : Char) : Bool :=
  c = ' ' || c = '\t' || c = '\n' || c = '\r' || c = '\x0b' || c = '\x0c'

/-- Python `str.strip()`. -/
def pyStrip (s : Str) : Str :=
  ((s.dropWhile pyIsSpace).reverse.dropWhile pyIsSpace).reverse

/-- Python `str.split(sep)` for a one-character separator (keeps empties). -/
def pySplit (sep : Char) : Str → List Str
  | [] => [[]]
  | c :: s =>
    if c = sep then [] :: pySplit sep s
    else
      match pySplit sep s with
      | t :: ts => (c :: t) :: ts
      | [] => [[c]]

/-- Python `str.startswith(pat)`. -/
def strStarts : Str → Str → Bool
  | [], _ => true
  | _ :: _, [] => false
  | p :: ps, c :: cs => p = c && strStarts ps cs

/-- Python `str.endswith(suf)`. -/
def pyEndsWith (suf s : Str) : Bool := strStarts suf.reverse s.reverse

/-- Python `str.lower()` (ASCII case folding suffices for the sources). -/
def pyLower (s : Str) : Str := s.map Char.toLower

/-- Python `sep.join(xs)`. -/
def pyJoin (sep : Str) (xs : List Str) : Str := List.intercalate sep xs

/-- Fuelled worker for `pyReplace`; the fuel (the subject's length) bounds
the number of steps because each step consumes at least one character. -/
def pyReplaceFuel (pat rep : Str) : Nat → Str → Str
  | 0, s => s
  | _ + 1, [] => []
  | fuel + 1, c :: s =>
    if !pat.isEmpty && strStarts pat (c :: s) then
      rep ++ pyReplaceFuel pat rep fuel ((c :: s).drop pat.length)
    else c :: pyReplaceFuel pat rep fuel s

/-- Python `str.replace(pat, rep)`; every call site in the sources uses a
non-empty literal pattern, for which this fuelled scan is exact. -/
def pyReplace (s pat rep : Str) : Str := pyReplaceFuel pat rep s.length s

/-- Python `str.split(sep, 1)` when the separator occurs: the parts before
and after the first occurrence; `none` when the separator is absent. -/
def splitFirst (sep : Char) : Str → Option (Str × Str)
  | [] => none
  | c :: s =>
    if c = sep then some ([], s)
    else (splitFirst sep s).map (fun p => (c :: p.1, p.2))

/-- Normalised conversation turn (output of tracker.py `parse_jsonl_entry`). -/
structure Message where
  role : Str
  content : Str
deriving DecidableEq, Repr

/-- Result record of agent.py `parse_skill_decision`. -/
structure Decision where
  start : List Str
  stop : List Str
  new : List (Str × Str)
  reason : Str
deriving DecidableEq, Repr

/-- One line of the loop in agent.py `parse_skill_decision`. -/
def decisionStep (acc : Decision) (line0 : Str) : Decision :=
  let line := pyStrip line0
  if strStarts "START:".data line then
    let skills := pyStrip (pyReplace line "START:".data [])
    if pyLower skills ≠ "none".data then
      { acc with start := ((pySplit ',' skills).map pyStrip).filter (· ≠ []) }
    else acc
  else if strStarts "STOP:".data line then
    let skills := pyStrip (pyReplace line "STOP:".data [])
    if pyLower skills ≠ "none".data then
      { acc with stop := ((pySplit ',' skills).map pyStrip).filter (· ≠ []) }
    else acc
  else if strStarts "NEW:".data line then
    let ns := pyStrip (pyReplace line "NEW:".data [])
    if pyLower ns ≠ "none".data then
      match splitFirst ':' ns with
      | some p => { acc with new := acc.new ++ [(pyStrip p.1, pyStrip p.2)] }
      | none => acc
    else acc
  else if strStarts "REASON:".data line then
    { acc with reason := pyStrip (pyReplace line "REASON:".data []) }
  else acc

/-- agent.py `parse_skill_decision`. -/
def parse_skill_decision (response : Str) : Decision :=
  (pySplit '\n' (pyStrip response)).foldl decisionStep ⟨[], [], [], []⟩

/-- observer.py `DistillResult`. -/
structure DistillResult where
  details : Option Str
  resource_files : Option (List (Str × Str))
deriving DecidableEq, Repr

/-- Insert-or-overwrite in an association list, modelling Python dict
assignment (an existing key keeps its position, a new key is appended). -/
def upsert (k v : Str) : List (Str × Str) → List (Str × Str)
  | [] => [(k, v)]
  | (k', v') :: m => if k' = k then (k', v) :: m else (k', v') :: upsert k v m

/-- Accumulator of the line loop in observer.py `parse_distill_response`. -/
structure DistillAcc where
  resource_files : List (Str × Str)
  main : List Str
  current_file : Option Str
  current_lines : List Str

/-- Python truthiness of the `current_file` variable (`None` and the empty
string are both falsy). -/
def fileTruthy : Option Str → Bool
  | none => false
  | some f => !f.isEmpty

/-- Saving of the pending resource block (`if current_file: resource_files[...] = ...`). -/
def distillFlush (acc : DistillAcc) : List (Str × Str) :=
  match acc.current_file with
  | some f =>
    if !f.isEmpty then
      upsert f (pyStrip (pyJoin "\n".data acc.current_lines)) acc.resource_files
    else acc.resource_files
  | none => acc.resource_files

/-- One line of the loop in observer.py `parse_distill_response`. -/
def distillStep (acc : DistillAcc) (line : Str) : DistillAcc :=
  if strStarts "NEW_FILE:".data line then
    { resource_files := distillFlush acc
      main := acc.main
      current_file := some (pyStrip (pyReplace line "NEW_FILE:".data []))
      current_lines := [] }
  else if fileTruthy acc.current_file then
    { acc with current_lines := acc.current_lines ++ [line] }
  else
    { acc with main := acc.main ++ [line] }

/-- observer.py `parse_distill_response`. -/
def parse_distill_response (response : Str) : DistillResult :=
  if response = [] ∨ pyStrip response = "NO_UPDATE".data then ⟨none, none⟩
  else
    let acc := (pySplit '\n' response).foldl distillStep ⟨[], [], none, []⟩
    let rf := distillFlush acc
    let details := pyStrip (pyJoin "\n".data acc.main)
    ⟨if details ≠ [] then some details else none,
     if rf ≠ [] then some rf else none⟩

/-! ## tracker.py -/

/-- Fields of a decoded JSONL content block that tracker.py reads
(`block.get("type")`, `block.get("text", "")`); `isDict` records whether the
block was a JSON object at all. -/
structure RawBlock where
  isDict : Bool
  btype : Option Str
  text : Option Str
deriving DecidableEq, Repr

/-- The `message.content` field: either a JSON string or a list of blocks
(the only shapes the source distinguishes). -/
inductive RawContent where
  | str (s : Str)
  | blocks (bs : List RawBlock)
deriving DecidableEq, Repr

/-- The `message` object of a cache entry (`.get("role")`, `.get("content")`). -/
structure RawMessage where
  role : Option Str
  content : Option RawContent
deriving DecidableEq, Repr

/-- A decoded JSONL cache entry (`.get("type")`, `.get("message", ...)`). -/
structure RawEntry where
  type : Option Str
  message : Option RawMessage
deriving DecidableEq, Repr

/-- Text contributed by one content block: only dict blocks whose type is
`"text"` contribute, with `.get("text", "")`. -/
def blockText (b : RawBlock) : Option Str :=
  if b.isDict && b.btype = some "text".data then some (b.text.getD []) else none

/-- Normalised content string: `message.get("content", "")`, joining the text
blocks with a newline when the content is a block list. -/
def contentText : Option RawContent → Str
  | none => []
  | some (RawContent.str s) => s
  | some (RawContent.blocks bs) => pyJoin "\n".data (bs.filterMap blockText)

/-- tracker.py `parse_jsonl_entry`. -/
def parse_jsonl_entry (e : RawEntry) : Option Message :=
  match e.type with
  | none => none
  | some t =>
    if t = "user".data ∨ t = "assistant".data then
      let role := (e.message.bind RawMessage.role).getD t
      let content := contentText (e.message.bind RawMessage.content)
      if content = [] then none else some ⟨role, content⟩
    else none

/-- One physical line of a transcript file: its raw text (without the
terminating newline) and the outcome of `json.loads` on it (`none` models a
`json.JSONDecodeError`).  Treating the decoder's outcome as part of the input
keeps the external JSON library out of the embedding. -/
structure LogLine where
  raw : Str
  json : Option RawEntry
deriving DecidableEq, Repr

/-- Byte length of one stored line, terminating newline included. -/
def lineSize (l : LogLine) : Nat := l.raw.length + 1

/-- Total byte size of a transcript file (`stat().st_size`). -/
def fileSize (ls : List LogLine) : Nat := (ls.map lineSize).sum

/-- Message produced by one line of the read loop: blank lines are skipped,
undecodable lines are skipped (`except json.JSONDecodeError: continue`),
decoded entries go through `parse_jsonl_entry`. -/
def parseLine (l : LogLine) : Option Message :=
  if pyStrip l.raw = [] then none
  else
    match l.json with
    | none => none
    | some e => parse_jsonl_entry e

/-- Messages of a run of lines, in file order. -/
def readLines (ls : List LogLine) : List Message := ls.filterMap parseLine

/-- Lines remaining after seeking to byte `pos`.  At a line boundary this is
the exact list of unread lines; a seek that lands inside a line skips the
remainder of that line (such a tail almost never decodes as JSON, and the
tracker only ever seeks to boundary positions it obtained from a prior read). -/
def dropToPos : List LogLine → Nat → List LogLine
  | ls, 0 => ls
  | [], _ + 1 => []
  | l :: ls, pos + 1 =>
    if lineSize l ≤ pos + 1 then dropToPos ls (pos + 1 - lineSize l) else ls

/-- tracker.py `read_messages_from_position` (successful read): parse every
line from `pos` on, and report the final stream position — the end of the
file, or `pos` itself when the seek was already past the end. -/
def read_messages_from_position (ls : List LogLine) (pos : Nat) :
    List Message × Nat :=
  (readLines (dropToPos ls pos), max pos (fileSize ls))

/-- tracker.py `ConversationTracker.__init__` state. -/
structure TrackerState where
  file_position : Nat
  current_file : Option String
  skip_existing : Bool
  initialized : Bool
deriving DecidableEq, Repr

/-- Fresh tracker (`ConversationTracker(skip_existing)`). -/
def trackerInit (skip_existing : Bool) : TrackerState :=
  ⟨0, none, skip_existing, false⟩

/-- The most recent conversation file as seen by one `update()` call:
its path (`file_key`) and its current contents. -/
structure FileObs where
  key : String
  lines : List LogLine
deriving Repr

/-- Environment of one `update()` call: the chosen most-recent file (if any),
and whether opening it for reading fails (`FileNotFoundError`/`PermissionError`). -/
structure TrackerObs where
  file? : Option FileObs
  readFails : Bool
deriving Repr

/-- The read phase of `update()`: on failure the cursor is left unchanged
(`return [], last_position`), otherwise the cursor advances to the reported
stream position; either way `initialized` becomes true. -/
def readStep (s : TrackerState) (f : FileObs) (readFails : Bool) :
    List Message × TrackerState :=
  if readFails then ([], { s with initialized := true })
  else
    let r := read_messages_from_position f.lines s.file_position
    (r.1, { s with file_position := r.2, initialized := true })

/-- tracker.py `ConversationTracker.update`. -/
def tracker_update (s : TrackerState) (o : TrackerObs) :
    List Message × TrackerState :=
  match o.file? with
  | none => ([], s)
  | some f =>
    if some f.key ≠ s.current_file then
      if s.skip_existing && !s.initialized then
        ([], { s with current_file := some f.key,
                      file_position := fileSize f.lines,
                      initialized := true })
      else
        readStep { s with current_file := some f.key, file_position := 0 } f
          o.readFails
    else
      readStep s f o.readFails

/-! ## UTF-8 (Python `str.encode("utf-8")` / `bytes.decode("utf-8", errors="ignore")`) -/

/-- UTF-8 encoding of one code point, as a list of byte values. -/
def utf8EncodeChar (c : Char) : List Nat :=
  let n := c.toNat
  if n < 0x80 then [n]
  else if n < 0x800 then [0xC0 + n / 0x40, 0x80 + n % 0x40]
  else if n < 0x10000 then
    [0xE0 + n / 0x1000, 0x80 + n / 0x40 % 0x40, 0x80 + n % 0x40]
  else
    [0xF0 + n / 0x40000, 0x80 + n / 0x1000 % 0x40, 0x80 + n / 0x40 % 0x40,
     0x80 + n % 0x40]

/-- Python `str.encode("utf-8")`. -/
def utf8Encode : Str → List Nat
  | [] => []
  | c :: s => utf8EncodeChar c ++ utf8Encode s

/-- Encoded size in bytes (`len(s.encode("utf-8"))`). -/
def utf8Size (s : Str) : Nat := (utf8Encode s).length

/-- Is `b` a UTF-8 continuation byte. -/
def isCont (b : Nat) : Bool := 0x80 ≤ b && b < 0xC0

/-- Code points recovered by CPython's UTF-8 decoder with `errors="ignore"`:
well-formed sequences decode (overlong forms, surrogates and values above
U+10FFFF are rejected as CPython does); the bytes of an ill-formed or
truncated sequence are dropped and decoding resumes. -/
def utf8DecodePoints : List Nat → List Nat
  | [] => []
  | b0 :: r0 =>
    if b0 < 0x80 then b0 :: utf8DecodePoints r0
    else if b0 < 0xC2 then utf8DecodePoints r0
    else if b0 < 0xE0 then
      match r0 with
      | [] => []
      | b1 :: r1 =>
        if isCont b1 then
          ((b0 - 0xC0) * 0x40 + (b1 - 0x80)) :: utf8DecodePoints r1
        else utf8DecodePoints (b1 :: r1)
    else if b0 < 0xF0 then
      match r0 with
      | [] => []
      | b1 :: r1 =>
        if isCont b1 && (decide (b0 ≠ 0xE0) || decide (0xA0 ≤ b1)) &&
            (decide (b0 ≠ 0xED) || decide (b1 < 0xA0)) then
          match r1 with
          | [] => []
          | b2 :: r2 =>
            if isCont b2 then
              ((b0 - 0xE0) * 0x1000 + (b1 - 0x80) * 0x40 + (b2 - 0x80)) ::
                utf8DecodePoints r2
            else utf8DecodePoints (b2 :: r2)
        else utf8DecodePoints (b1 :: r1)
    else if b0 < 0xF5 then
      match r0 with
      | [] => []
      | b1 :: r1 =>
        if isCont b1 && (decide (b0 ≠ 0xF0) || decide (0x90 ≤ b1)) &&
            (decide (b0 ≠ 0xF4) || decide (b1 < 0x90)) then
          match r1 with
          | [] => []
          | b2 :: r2 =>
            if isCont b2 then
              match r2 with
              | [] => []
              | b3 :: r3 =>
                if isCont b3 then
                  ((b0 - 0xF0) * 0x40000 + (b1 - 0x80) * 0x1000 +
                      (b2 - 0x80) * 0x40 + (b3 - 0x80)) :: utf8DecodePoints r3
                else utf8DecodePoints (b3 :: r3)
            else utf8DecodePoints (b2 :: r2)
        else utf8DecodePoints (b1 :: r1)
    else utf8DecodePoints r0
termination_by bs => bs.length
decreasing_by all_goals simp <;> omega

/-- Python `bytes.decode("utf-8", errors="ignore")`. -/
def utf8DecodeIgnore (bs : List Nat) : Str :=
  (utf8DecodePoints bs).map Char.ofNat

/-- Longest whole-character run of `s` whose encoding fits in `cap` bytes
(greedy, hence also the longest).  Used only to state what the source's
encode-truncate-decode round trip computes. -/
def utf8Keep : Str → Nat → Str
  | [], _ => []
  | c :: cs, cap =>
    if (utf8EncodeChar c).length ≤ cap then
      c :: utf8Keep cs (cap - (utf8EncodeChar c).length)
    else []

/-- observer.py `summarize_index`, reduced to its pure tail: the engine's
response text (already `none` when the engine returned nothing) is stripped,
and then truncated to `max_index_size` bytes through the
encode-take-decode-ignore round trip of lines 206-213. -/
def summarize_index_cap (resp : Option Str) (max_index_size : Nat) :
    Option Str :=
  match resp with
  | none => none
  | some r0 =>
    let r := pyStrip r0
    some (if max_index_size < utf8Size r then
            utf8DecodeIgnore ((utf8Encode r).take max_index_size)
          else r)

/-! ## observer.py / agent.py `truncate_messages` -/

/-- agent.py lines 32-35: cap one message's content at 2000 characters,
appending an ellipsis marker. -/
def Agent.truncOne (msg : Message) : Message :=
  if 2000 < msg.content.length then
    ⟨msg.role, msg.content.take 2000 ++ "...".data⟩
  else msg

/-- agent.py lines 28-41: walk the reversed list, accumulating capped
messages until the character budget would be exceeded. -/
def Agent.truncGo (max_chars : Nat) : List Message → Nat → List Message
  | [], _ => []
  | m :: ms, total =>
    let m' := Agent.truncOne m
    if max_chars < total + m'.content.length then []
    else m' :: Agent.truncGo max_chars ms (total + m'.content.length)

/-- agent.py `truncate_messages`. -/
def Agent.truncate_messages (messages : List Message) (max_chars : Nat) :
    List Message :=
  (Agent.truncGo max_chars messages.reverse 0).reverse

/-- observer.py lines 32-35 (same text as the agent's copy). -/
def Observer.truncOne (msg : Message) : Message :=
  if 2000 < msg.content.length then
    ⟨msg.role, msg.content.take 2000 ++ "...".data⟩
  else msg

/-- observer.py lines 28-41 (same text as the agent's copy). -/
def Observer.truncGo (max_chars : Nat) : List Message → Nat → List Message
  | [], _ => []
  | m :: ms, total =>
    let m' := Observer.truncOne m
    if max_chars < total + m'.content.length then []
    else m' :: Observer.truncGo max_chars ms (total + m'.content.length)

/-- observer.py `truncate_messages`. -/
def Observer.truncate_messages (messages : List Message) (max_chars : Nat) :
    List Message :=
  (Observer.truncGo max_chars messages.reverse 0).reverse

/-- Modelled from the claim's words, for the refinement comparison: a single
message longer than 2000 characters is replaced by its first 2000 characters
plus an ellipsis. -/
def specCapMessage (msg : Message) : Message :=
  if 2000 < msg.content.length then
    ⟨msg.role, msg.content.take 2000 ++ "...".data⟩
  else msg

/-- Total character count of a batch of messages. -/
def specTotalChars (l : List Message) : Nat :=
  (l.map (fun m => m.content.length)).sum

/-- Modelled from the claim's words: the longest suffix whose total content
size fits the budget. -/
def specLongestFitSuffix : List Message → Nat → List Message
  | [], _ => []
  | m :: t, budget =>
    if specTotalChars (m :: t) ≤ budget then m :: t
    else specLongestFitSuffix t budget

/-- Modelled from the claim's words: cap each message, keep the longest
fitting suffix, preserve order. -/
def spec_truncate_messages (messages : List Message) (budget : Nat) :
    List Message :=
  specLongestFitSuffix (messages.map specCapMessage) budget

/-! ## observer.py `run_observer` loop body -/

/-- On-disk artifact set of one skill (skill.py `SkillDir`), with absent
files read back as the empty string. -/
structure SkillFiles where
  index : Str
  details : Str
  resources : List (Str × Str)
deriving DecidableEq, Repr

/-- observer.py lines 300-306: write each returned resource file. -/
def write_resources (files : SkillFiles) :
    Option (List (Str × Str)) → SkillFiles
  | none => files
  | some l =>
    { files with
      resources := l.foldl (fun m kv => upsert kv.1 kv.2 m) files.resources }

/-- Per-skill state carried across iterations of `run_observer`. -/
structure ObserverState where
  pending : List Message
  distill_count : Nat
  files : SkillFiles
deriving DecidableEq, Repr

/-- What one pass of the loop body did. -/
structure ObsEvents where
  attempted : Bool
  succeeded : Bool
  summarized : Bool
  exited : Bool
deriving DecidableEq, Repr

/-- Python truthiness of `result.details`. -/
def detailsTruthy : Option Str → Bool
  | none => false
  | some d => !d.isEmpty

/-- One pass of the `run_observer` loop body (observer.py lines 257-328),
entered after the `while not shutdown_requested` guard.  `shutdown` is the
flag as sampled inside the body (a signal is only observed at these checks);
`engine` is the parsed engine response for the distillation call and
`engineIndex` the raw engine response for the summarization call, both
supplied as inputs since the engine is external.  The events record whether a
distillation was attempted, whether it succeeded (`result.details` truthy),
whether `summarize_index` was invoked, and whether the body ends by breaking
out of the loop. -/
def observer_body (message_threshold max_index_size : Nat) (shutdown : Bool)
    (s : ObserverState) (newMsgs : List Message) (engine : DistillResult)
    (engineIndex : Option Str) : ObserverState × ObsEvents :=
  let pending := s.pending ++ newMsgs
  let should_distill :=
    decide (message_threshold ≤ pending.length) ||
      (shutdown && !pending.isEmpty)
  if should_distill && !pending.isEmpty then
    if detailsTruthy engine.details then
      let d := engine.details.getD []
      let files1 := { s.files with details := d }
      let files2 := write_resources files1 engine.resource_files
      let dc := s.distill_count + 1
      let doSum := decide (dc % 3 = 0) || shutdown
      let files3 :=
        if doSum then
          match summarize_index_cap engineIndex max_index_size with
          | some ic => if ic ≠ [] then { files2 with index := ic } else files2
          | none => files2
        else files2
      (⟨[], dc, files3⟩, ⟨true, true, doSum, shutdown⟩)
    else (⟨[], s.distill_count, s.files⟩, ⟨true, false, false, shutdown⟩)
  else (⟨pending, s.distill_count, s.files⟩, ⟨false, false, false, shutdown⟩)

/-! ## agent.py `run_agent` loop body -/

/-- Lookup by skill name in the running map (`name in running`). -/
def lookupName (run : List (Str × Int)) (n : Str) : Option Int :=
  match run with
  | [] => none
  | (k, v) :: t => if k = n then some v else lookupName t n

/-- agent.py lines 300-309: spawn observers for proposed new skills; the
spawn oracle models `start_observer`, returning the child pid or `none`. -/
def applyNew (spawn : Str → Option Int) (run : List (Str × Int)) :
    List (Str × Str) → List (Str × Int)
  | [] => run
  | (name, _) :: rest =>
    let run' :=
      if (lookupName run name).isNone then
        match spawn name with
        | some pid => run ++ [(name, pid)]
        | none => run
      else run
    applyNew spawn run' rest

/-- agent.py lines 312-323: start observers for proposed existing skills. -/
def applyStart (spawn : Str → Option Int) (existing : List Str)
    (run : List (Str × Int)) : List Str → List (Str × Int)
  | [] => run
  | name :: rest =>
    let run' :=
      if (lookupName run name).isSome then run
      else if name ∈ existing then
        match spawn name with
        | some pid => run ++ [(name, pid)]
        | none => run
      else run
    applyStart spawn existing run' rest

/-- agent.py lines 326-330: stop observers and drop them from the map. -/
def applyStop (run : List (Str × Int)) : List Str → List (Str × Int)
  | [] => run
  | name :: rest =>
    applyStop
      (if (lookupName run name).isSome then
        run.filter (fun kv => kv.1 ≠ name)
      else run) rest

/-- One pass of the `run_agent` loop body (agent.py lines 274-332): pull new
messages, and once the threshold is reached evaluate (decision supplied as
input, the engine being external), apply it, and clear the pending buffer.
Returns the new pending buffer, the new running map, and whether an
evaluation took place. -/
def agent_body (agent_message_threshold : Nat) (pending0 : List Message)
    (newMsgs : List Message) (running : List (Str × Int))
    (decision : Decision) (spawn : Str → Option Int) (existing : List Str) :
    (List Message × List (Str × Int)) × Bool :=
  let pending := pending0 ++ newMsgs
  if agent_message_threshold ≤ pending.length then
    let r1 := applyNew spawn running decision.new
    let r2 := applyStart spawn existing r1 decision.start
    let r3 := applyStop r2 decision.stop
    (([], r3), true)
  else ((pending, running), false)

/-! ## skill.py -/

/-- Contents of one skill directory: filename to file content, in directory
order; `none` models an absent directory. -/
abbrev DirListing := List (Str × Str)

/-- skill.py `SkillDir.list_resources`: the `*.md` glob minus the two
reserved names; empty when the directory does not exist. -/
def list_resources (dir? : Option DirListing) : List Str :=
  match dir? with
  | none => []
  | some d =>
    (d.map Prod.fst).filter fun n =>
      pyEndsWith ".md".data n && decide (n ≠ "index.md".data) &&
        decide (n ≠ "details.md".data)

/-- skill.py `SkillDir.write_resource` (via utils.py `write_file`, which
creates the directory if missing and overwrites the file). -/
def write_resource (dir? : Option DirListing) (name content : Str) :
    Option DirListing :=
  some (upsert name content (dir?.getD []))

/-- One PID file under the skills root: the skill name recovered from the
`.<name>.pid` filename, and the file's text content. -/
structure PidEntry where
  name : Str
  content : Str
deriving DecidableEq, Repr

/-- Python `int(s)` on a stripped decimal string: optional sign then digits
(`none` models `ValueError`). -/
def digitsVal (ds : Str) : Option Nat :=
  if ds ≠ [] ∧ ds.all Char.isDigit then
    some (ds.foldl (fun a c => a * 10 + (c.toNat - 48)) 0)
  else none

/-- Python `int(content.strip())` as used on a PID file. -/
def pyParseInt (s : Str) : Option Int :=
  match pyStrip s with
  | '-' :: ds => (digitsVal ds).map (fun n => -(n : Int))
  | '+' :: ds => (digitsVal ds).map (fun n => (n : Int))
  | ds => (digitsVal ds).map (fun n => (n : Int))

/-- The loop of skill.py `get_running_observers` over the `.*.pid` glob:
parse each file's pid and probe it (`os.kill(pid, 0)`, modelled by the
`alive` oracle — a raised `ProcessLookupError`/`PermissionError` is a failed
probe); entries that parse and probe successfully are collected, every other
entry's file is unlinked.  Returns the running map together with the PID
files still on disk afterwards. -/
def runningCore (alive : Int → Bool) :
    List PidEntry → List (Str × Int) × List PidEntry
  | [] => ([], [])
  | e :: es =>
    let r := runningCore alive es
    match pyParseInt e.content with
    | some pid => if alive pid then ((e.name, pid) :: r.1, e :: r.2) else r
    | none => r

/-- skill.py `get_running_observers`; an absent skills root yields the empty
map (`if not skills_dir.exists(): return`). -/
def get_running_observers (root? : Option (List PidEntry))
    (alive : Int → Bool) : List (Str × Int) × List PidEntry :=
  match root? with
  | none => ([], [])
  | some entries => runningCore alive entries

/-- Proof helper: greedy front-to-back take of messages under a character
budget (mirror image of the reversed accumulation loop). -/
def takeFit : List Message → Nat → List Message
  | [], _ => []
  | m :: ms, b =>
    if b < m.content.length then []
    else m :: takeFit ms (b - m.content.length)

/-! ## Theorems -/

/-- Claim C5: `parse_skill_decision` on the example response yields
start `[a, b]`, an empty stop set (case-insensitive sentinel `none`),
one new skill `foo` described `makes foo`, and reason `x`. -/
theorem c5_parse_skill_decision_example :
    parse_skill_decision
        "START: a, b\nSTOP: none\nNEW: foo: makes foo\nREASON: x".data =
      ⟨["a".data, "b".data], [], [("foo".data, "makes foo".data)],
        "x".data⟩ := by
  decide

/-- Claim C6: `parse_distill_response` on a details paragraph followed by a
`NEW_FILE: ex.md` marker and two content lines yields the trimmed paragraph
as details and the trimmed two lines as the `ex.md` resource; the literal
response `NO_UPDATE` yields the absent result. -/
theorem c6_parse_distill_response_examples :
    parse_distill_response
        "Learned A.\nLearned B.\nNEW_FILE: ex.md\nalpha\nbeta".data =
      ⟨some "Learned A.\nLearned B.".data,
        some [("ex.md".data, "alpha\nbeta".data)]⟩ ∧
    parse_distill_response "NO_UPDATE".data = ⟨none, none⟩ := by
  exact ⟨by decide, by decide⟩

/-- Claim C9: reading from position 0 of a transcript whose middle line does
not decode as JSON returns exactly the two well-formed messages, in file
order, and the returned position is the end of the last consumed line (the
total file size) — no gap is left in the offset progression. -/
theorem c9_malformed_line_skipped :
    read_messages_from_position
        [⟨"type user says hello".data,
           some ⟨some "user".data, some ⟨none, some (RawContent.str "hello".data)⟩⟩⟩,
         ⟨"this line is not json".data, none⟩,
         ⟨"type assistant says world".data,
           some ⟨some "assistant".data,
             some ⟨some "assistant".data, some (RawContent.str "world".data)⟩⟩⟩] 0 =
      ([⟨"user".data, "hello".data⟩, ⟨"assistant".data, "world".data⟩],
        fileSize
          [⟨"type user says hello".data,
             some ⟨some "user".data, some ⟨none, some (RawContent.str "hello".data)⟩⟩⟩,
           ⟨"this line is not json".data, none⟩,
           ⟨"type assistant says world".data,
             some ⟨some "assistant".data,
               some ⟨some "assistant".data, some (RawContent.str "world".data)⟩⟩⟩]) := by
  decide

/-- Claim C3, counterexample: with shutdown requested and no pending
messages, the loop body exits without invoking index re-summarization, so
"when shutdown is requested the observer re-summarizes the index before
exiting" fails as stated. -/
theorem c3_counterexample :
    ¬ ((observer_body 5 100 true ⟨[], 0, ⟨[], [], []⟩⟩ [] ⟨none, none⟩
          none).2.exited = true →
        (observer_body 5 100 true ⟨[], 0, ⟨[], [], []⟩⟩ [] ⟨none, none⟩
          none).2.summarized = true) := by
  decide

/-- Claim C3, amended: index re-summarization is invoked only during a
successful distillation whose post-increment count is divisible by 3 or
which runs under a requested shutdown; under shutdown it is invoked exactly
when that final distillation succeeds, and a successful distillation is in
particular an attempted one. -/
theorem c3_summarize_schedule (thr cap : Nat) (shutdown : Bool)
    (s : ObserverState) (newMsgs : List Message) (engine : DistillResult)
    (engineIndex : Option Str) :
    ((observer_body thr cap shutdown s newMsgs engine engineIndex).2.summarized = true →
      (observer_body thr cap shutdown s newMsgs engine engineIndex).2.succeeded = true ∧
        ((observer_body thr cap shutdown s newMsgs engine engineIndex).1.distill_count % 3 = 0 ∨
          shutdown = true)) ∧
    (shutdown = true →
      (observer_body thr cap shutdown s newMsgs engine engineIndex).2.succeeded = true →
      (observer_body thr cap shutdown s newMsgs engine engineIndex).2.summarized = true) ∧
    ((observer_body thr cap shutdown s newMsgs engine engineIndex).2.succeeded = true →
      (observer_body thr cap shutdown s newMsgs engine engineIndex).2.attempted = true) := by
  unfold observer_body
  dsimp only
  split_ifs with h1 h2 h3
  · refine ⟨fun _ => ⟨rfl, ?_⟩, fun _ _ => h3, fun _ => rfl⟩
    have h3' := h3
    rw [Bool.or_eq_true] at h3'
    rcases h3' with h | h
    · exact Or.inl (of_decide_eq_true h)
    · exact Or.inr h
  · exact ⟨fun hs => absurd hs h3,
      fun hsh _ => absurd (by rw [hsh]; simp) h3, fun _ => rfl⟩
  · exact ⟨fun h => h.elim, fun _ h => h.elim, fun h => h.elim⟩
  · exact ⟨fun h => h.elim, fun _ h => h.elim, fun h => h.elim⟩

/-- Claim C3 witness: a successful final distillation under shutdown does
trigger re-summarization. -/
theorem c3_witness :
    (observer_body 1 100 true ⟨[⟨"user".data, "hi".data⟩], 0, ⟨[], [], []⟩⟩
        [] ⟨some "d".data, none⟩ none).2.summarized = true := by
  have h := c3_summarize_schedule 1 100 true
    ⟨[⟨"user".data, "hi".data⟩], 0, ⟨[], [], []⟩⟩ [] ⟨some "d".data, none⟩ none
  exact h.2.1 rfl (by decide)

/-- Claim C4: whenever the observer body performs a distillation attempt, or
the agent body performs an evaluation, the pending buffer afterwards is
empty, whatever the engine returned. -/
theorem c4_pending_cleared (thr cap athr : Nat) (shutdown : Bool)
    (s : ObserverState) (newMsgs : List Message) (engine : DistillResult)
    (engineIndex : Option Str) (p0 newMsgs2 : List Message)
    (running : List (Str × Int)) (decision : Decision)
    (spawn : Str → Option Int) (existing : List Str) :
    ((observer_body thr cap shutdown s newMsgs engine engineIndex).2.attempted = true →
      (observer_body thr cap shutdown s newMsgs engine engineIndex).1.pending = []) ∧
    ((agent_body athr p0 newMsgs2 running decision spawn existing).2 = true →
      (agent_body athr p0 newMsgs2 running decision spawn existing).1.1 = []) := by
  constructor
  · unfold observer_body
    dsimp only
    split_ifs with h1 h2 h3 <;>
      first
        | exact fun _ => rfl
        | exact fun h => h.elim
  · unfold agent_body
    dsimp only
    split_ifs with h <;>
      first
        | exact fun _ => rfl
        | exact fun hfalse => hfalse.elim

/-- Claim C4 witness: concrete observer and agent passes that do attempt,
with empty buffers afterwards. -/
theorem c4_witness :
    (observer_body 1 100 false ⟨[⟨"user".data, "hi".data⟩], 0, ⟨[], [], []⟩⟩
        [] ⟨none, none⟩ none).1.pending = [] ∧
    (agent_body 1 [⟨"user".data, "hi".data⟩] [] [] ⟨[], [], [], []⟩
        (fun _ => none) []).1.1 = [] := by
  have h := c4_pending_cleared 1 100 1 false
    ⟨[⟨"user".data, "hi".data⟩], 0, ⟨[], [], []⟩⟩ [] ⟨none, none⟩ none
    [⟨"user".data, "hi".data⟩] [] [] ⟨[], [], [], []⟩ (fun _ => none) []
  exact ⟨h.1 (by decide), h.2 (by decide)⟩

theorem mem_upsert_self (k v : Str) :
    ∀ m : List (Str × Str), k ∈ (upsert k v m).map Prod.fst
  | [] => by simp [upsert]
  | (k', v') :: m => by
    by_cases h : k' = k
    · simp [upsert, h]
    · simp only [upsert, if_neg h, List.map_cons, List.mem_cons]
      exact Or.inr (mem_upsert_self k v m)

/-- Claim C7, counterexample: `write_resource` with the non-reserved name
`data.txt` does not make the name appear in a subsequent `list_resources`
call, because `list_resources` only globs `*.md`. -/
theorem c7_counterexample :
    ¬ ("data.txt".data ≠ "index.md".data →
        "data.txt".data ≠ "details.md".data →
        "data.txt".data ∈
          list_resources (write_resource (some []) "data.txt".data "x".data)) := by
  decide

/-- Claim C7, amended: `list_resources` returns exactly the `*.md` artifact
files except the two reserved names, the empty set when the directory is
absent, and every non-reserved `*.md` name previously written via
`write_resource` appears in a subsequent `list_resources` call. -/
theorem c7_list_resources (d : DirListing) (n : Str) (dir? : Option DirListing)
    (name content : Str) (h1 : pyEndsWith ".md".data name = true)
    (h2 : name ≠ "index.md".data) (h3 : name ≠ "details.md".data) :
    list_resources none = [] ∧
    (n ∈ list_resources (some d) ↔
      (n ∈ d.map Prod.fst ∧ pyEndsWith ".md".data n = true ∧
        n ≠ "index.md".data ∧ n ≠ "details.md".data)) ∧
    name ∈ list_resources (write_resource dir? name content) := by
  refine ⟨rfl, ?_, ?_⟩
  · simp [list_resources, List.mem_filter, and_assoc]
  · simp only [write_resource, list_resources, List.mem_filter]
    refine ⟨mem_upsert_self name content (dir?.getD []), ?_⟩
    simp [h1, h2, h3]

/-- Claim C7 witness: a written `notes.md` resource is listed. -/
theorem c7_witness :
    "notes.md".data ∈
      list_resources (write_resource (some []) "notes.md".data "x".data) := by
  exact (c7_list_resources [] [] (some []) "notes.md".data "x".data
    (by decide) (by decide) (by decide)).2.2

theorem runningCore_run_name (alive : Int → Bool) :
    ∀ (es : List PidEntry) (n : Str) (p : Int),
      (n, p) ∈ (runningCore alive es).1 → n ∈ es.map PidEntry.name
  | [], n, p => by simp [runningCore]
  | x :: es, n, p => by
    intro hmem
    simp only [runningCore] at hmem
    simp only [List.map_cons, List.mem_cons]
    cases hx : pyParseInt x.content with
    | none =>
      rw [hx] at hmem
      exact Or.inr (runningCore_run_name alive es n p hmem)
    | some q =>
      rw [hx] at hmem
      dsimp only at hmem
      by_cases hq : alive q = true
      · rw [if_pos hq] at hmem
        rcases List.mem_cons.mp hmem with heq | hmem'
        · exact Or.inl (congrArg Prod.fst heq)
        · exact Or.inr (runningCore_run_name alive es n p hmem')
      · rw [if_neg hq] at hmem
        exact Or.inr (runningCore_run_name alive es n p hmem)

theorem runningCore_rem_sub (alive : Int → Bool) :
    ∀ (es : List PidEntry) (x : PidEntry),
      x ∈ (runningCore alive es).2 → x ∈ es
  | [], x => by simp [runningCore]
  | y :: es, x => by
    intro hmem
    simp only [runningCore] at hmem
    simp only [List.mem_cons]
    cases hy : pyParseInt y.content with
    | none =>
      rw [hy] at hmem
      exact Or.inr (runningCore_rem_sub alive es x hmem)
    | some q =>
      rw [hy] at hmem
      dsimp only at hmem
      by_cases hq : alive q = true
      · rw [if_pos hq] at hmem
        rcases List.mem_cons.mp hmem with heq | hmem'
        · exact Or.inl heq
        · exact Or.inr (runningCore_rem_sub alive es x hmem')
      · rw [if_neg hq] at hmem
        exact Or.inr (runningCore_rem_sub alive es x hmem)

theorem runningCore_mem_pos (alive : Int → Bool) :
    ∀ (es : List PidEntry) (e : PidEntry), e ∈ es →
      ∀ pid, pyParseInt e.content = some pid → alive pid = true →
        (e.name, pid) ∈ (runningCore alive es).1 ∧
          e ∈ (runningCore alive es).2
  | [], e, he => absurd he (List.not_mem_nil e)
  | x :: es, e, he => by
    intro pid hp ha
    rcases List.mem_cons.mp he with rfl | hin
    · simp only [runningCore, hp, ha, if_pos]
      exact ⟨List.mem_cons_self _ _, List.mem_cons_self _ _⟩
    · have ih := runningCore_mem_pos alive es e hin pid hp ha
      simp only [runningCore]
      cases hx : pyParseInt x.content with
      | none => exact ih
      | some q =>
        dsimp only
        by_cases hq : alive q = true
        · rw [if_pos hq]
          exact ⟨List.mem_cons_of_mem _ ih.1, List.mem_cons_of_mem _ ih.2⟩
        · rw [if_neg hq]
          exact ih

theorem runningCore_mem_neg (alive : Int → Bool) :
    ∀ (es : List PidEntry) (e : PidEntry), e ∈ es →
      (es.map PidEntry.name).Nodup →
      (pyParseInt e.content = none ∨
        (∃ pid, pyParseInt e.content = some pid ∧ alive pid = false)) →
      (∀ p, (e.name, p) ∉ (runningCore alive es).1) ∧
        e ∉ (runningCore alive es).2
  | [], e, he, _, _ => absurd he (List.not_mem_nil e)
  | x :: es, e, he, hnd, hbad => by
    have hnd' : (es.map PidEntry.name).Nodup :=
      (List.nodup_cons.mp (by simpa using hnd)).2
    have hxname : x.name ∉ es.map PidEntry.name :=
      (List.nodup_cons.mp (by simpa using hnd)).1
    rcases List.mem_cons.mp he with rfl | hin
    · have hred : runningCore alive (e :: es) = runningCore alive es := by
        simp only [runningCore]
        rcases hbad with hnone | ⟨pid, hp, hf⟩
        · rw [hnone]
        · rw [hp]
          dsimp only
          rw [hf]
          simp
      rw [hred]
      constructor
      · intro p hp
        exact hxname (runningCore_run_name alive es e.name p hp)
      · intro hmem
        exact hxname
          (List.mem_map_of_mem PidEntry.name
            (runningCore_rem_sub alive es e hmem))
    · have ih := runningCore_mem_neg alive es e hin hnd' hbad
      have hne : e.name ≠ x.name := by
        intro hEq
        exact hxname (hEq ▸ List.mem_map_of_mem PidEntry.name hin)
      have hneq : e ≠ x := fun hEq => hne (by rw [hEq])
      simp only [runningCore]
      cases hx : pyParseInt x.content with
      | none => exact ih
      | some q =>
        dsimp only
        by_cases hq : alive q = true
        · rw [if_pos hq]
          constructor
          · intro p hp
            rcases List.mem_cons.mp hp with heq | hmem
            · exact hne (congrArg Prod.fst heq)
            · exact ih.1 p hmem
          · intro hm
            rcases List.mem_cons.mp hm with heq | hmem
            · exact hneq heq
            · exact ih.2 hmem
        · rw [if_neg hq]
          exact ih

/-- Claim C8: `get_running_observers` returns the empty map for an absent
skills root; an entry that parses to a pid whose liveness probe succeeds is
included in the returned mapping with its pid and its PID file is kept on
disk; an entry whose content does not parse as an integer, or whose probe
fails, contributes no mapping under its skill name and its PID file is
deleted from disk by the call. -/
theorem c8_stale_pid_cleanup (entries : List PidEntry) (alive : Int → Bool)
    (e : PidEntry) (he : e ∈ entries)
    (hnd : (entries.map PidEntry.name).Nodup) :
    get_running_observers none alive = ([], []) ∧
    (∀ pid, pyParseInt e.content = some pid → alive pid = true →
      (e.name, pid) ∈ (get_running_observers (some entries) alive).1 ∧
        e ∈ (get_running_observers (some entries) alive).2) ∧
    ((pyParseInt e.content = none ∨
        (∃ pid, pyParseInt e.content = some pid ∧ alive pid = false)) →
      (∀ p, (e.name, p) ∉ (get_running_observers (some entries) alive).1) ∧
        e ∉ (get_running_observers (some entries) alive).2) := by
  refine ⟨rfl, fun pid hp ha => ?_, fun hbad => ?_⟩
  · exact runningCore_mem_pos alive entries e he pid hp ha
  · exact runningCore_mem_neg alive entries e he hnd hbad

/-- Claim C8 witness: a live entry is reported with its pid. -/
theorem c8_witness :
    ("alpha".data, (42 : Int)) ∈
      (get_running_observers
        (some [⟨"alpha".data, "42".data⟩, ⟨"beta".data, "bad".data⟩])
        (fun p => decide (p = 42))).1 := by
  have h := c8_stale_pid_cleanup
    [⟨"alpha".data, "42".data⟩, ⟨"beta".data, "bad".data⟩]
    (fun p => decide (p = 42)) ⟨"alpha".data, "42".data⟩ (by decide) (by decide)
  exact (h.2.1 42 (by decide) (by decide)).1

theorem fileSize_append (a b : List LogLine) :
    fileSize (a ++ b) = fileSize a + fileSize b := by
  simp [fileSize]

theorem dropToPos_zero (ls : List LogLine) : dropToPos ls 0 = ls := by
  cases ls <;> rfl

theorem dropToPos_append : ∀ c d : List LogLine,
    dropToPos (c ++ d) (fileSize c) = d
  | [], d => by
    show dropToPos d (fileSize ([] : List LogLine)) = d
    show dropToPos d 0 = d
    exact dropToPos_zero d
  | l :: c, d => by
    have hpos : fileSize (l :: c) = (l.raw.length + fileSize c) + 1 := by
      simp [fileSize, lineSize]
      omega
    rw [List.cons_append, hpos]
    have hcond : lineSize l ≤ (l.raw.length + fileSize c) + 1 := by
      simp [lineSize]
    simp only [dropToPos]
    rw [if_pos hcond]
    have hsub : (l.raw.length + fileSize c) + 1 - lineSize l = fileSize c := by
      simp [lineSize]
    rw [hsub]
    exact dropToPos_append c d

/-- Claim C1: while the tracked file identity is unchanged the byte offset
never decreases; when the identity changes, on the very first observation
with `skip_existing` the offset is set to the file's size and no messages
are returned, and otherwise the offset is reset to 0 and the whole file is
read (ending at its size); and in the concrete skip-existing scenario the
first call on a file returns nothing while a subsequent append to that file
is fully visible to the next call. -/
theorem c1_tracker_offset (s : TrackerState) (o : TrackerObs) :
    ((tracker_update s o).2.current_file = s.current_file →
      s.file_position ≤ (tracker_update s o).2.file_position) ∧
    (∀ f, o.file? = some f → s.current_file ≠ some f.key →
      ((s.skip_existing = true ∧ s.initialized = false →
          (tracker_update s o).1 = [] ∧
          (tracker_update s o).2.file_position = fileSize f.lines) ∧
        (¬(s.skip_existing = true ∧ s.initialized = false) →
          o.readFails = false →
          (tracker_update s o).1 = readLines f.lines ∧
          (tracker_update s o).2.file_position = fileSize f.lines))) ∧
    (∀ (k : String) (c d : List LogLine),
      (tracker_update (trackerInit true) ⟨some ⟨k, c⟩, false⟩).1 = [] ∧
      (tracker_update (trackerInit true)
        ⟨some ⟨k, c⟩, false⟩).2.file_position = fileSize c ∧
      (tracker_update (tracker_update (trackerInit true)
          ⟨some ⟨k, c⟩, false⟩).2 ⟨some ⟨k, c ++ d⟩, false⟩).1 = readLines d ∧
      (tracker_update (tracker_update (trackerInit true)
          ⟨some ⟨k, c⟩, false⟩).2
        ⟨some ⟨k, c ++ d⟩, false⟩).2.file_position = fileSize (c ++ d)) := by
  refine ⟨?_, ?_, ?_⟩
  · cases ho : o.file? with
    | none =>
      intro _
      simp [tracker_update, ho]
    | some f =>
      intro hcf
      simp only [tracker_update, ho] at hcf ⊢
      by_cases hk : some f.key ≠ s.current_file
      · rw [if_pos hk] at hcf ⊢
        by_cases hsk : (s.skip_existing && !s.initialized) = true
        · rw [if_pos hsk] at hcf
          exact absurd hcf hk
        · rw [if_neg hsk] at hcf
          unfold readStep at hcf
          by_cases hrf : o.readFails = true
          · rw [if_pos hrf] at hcf
            exact absurd hcf hk
          · rw [if_neg hrf] at hcf
            exact absurd hcf hk
      · rw [if_neg hk]
        unfold readStep
        by_cases hrf : o.readFails = true
        · rw [if_pos hrf]
        · rw [if_neg hrf]
          exact le_max_left _ _
  · intro f ho hk
    have hk' : some f.key ≠ s.current_file := Ne.symm hk
    simp only [tracker_update, ho]
    rw [if_pos hk']
    constructor
    · rintro ⟨hse, hinit⟩
      have hsk : (s.skip_existing && !s.initialized) = true := by
        rw [hse, hinit]
        rfl
      rw [if_pos hsk]
      exact ⟨rfl, rfl⟩
    · intro hns hrf
      have hsk : ¬((s.skip_existing && !s.initialized) = true) := by
        intro hb
        rw [Bool.and_eq_true, Bool.not_eq_true'] at hb
        exact hns ⟨hb.1, hb.2⟩
      rw [if_neg hsk]
      unfold readStep
      rw [if_neg (by rw [hrf]; simp)]
      constructor
      · show (read_messages_from_position f.lines 0).1 = readLines f.lines
        simp only [read_messages_from_position, dropToPos_zero]
      · show max 0 (fileSize f.lines) = fileSize f.lines
        simp
  · intro k c d
    have h1 : tracker_update (trackerInit true) ⟨some ⟨k, c⟩, false⟩ =
        ([], ⟨fileSize c, some k, true, true⟩) := by
      simp only [tracker_update, trackerInit]
      rw [if_pos (show some k ≠ (none : Option String) by simp)]
      rfl
    refine ⟨by rw [h1], by rw [h1], ?_, ?_⟩
    · rw [h1]
      simp only [tracker_update]
      rw [if_neg (show ¬(some k ≠ some k) by simp)]
      unfold readStep
      rw [if_neg (by simp)]
      show (read_messages_from_position (c ++ d) (fileSize c)).1 = readLines d
      simp only [read_messages_from_position]
      rw [dropToPos_append]
    · rw [h1]
      simp only [tracker_update]
      rw [if_neg (show ¬(some k ≠ some k) by simp)]
      unfold readStep
      rw [if_neg (by simp)]
      show (read_messages_from_position (c ++ d) (fileSize c)).2 = fileSize (c ++ d)
      simp only [read_messages_from_position]
      rw [fileSize_append]
      omega

/-- Claim C1 witness: on the very first observation with skip-existing, the
call returns no messages and the offset lands at the file size. -/
theorem c1_witness :
    (tracker_update (trackerInit true)
      ⟨some ⟨"k", [⟨"ab".data, none⟩]⟩, false⟩).1 = [] ∧
    (tracker_update (trackerInit true)
      ⟨some ⟨"k", [⟨"ab".data, none⟩]⟩, false⟩).2.file_position = 3 := by
  have h := c1_tracker_offset (trackerInit true)
    ⟨some ⟨"k", [⟨"ab".data, none⟩]⟩, false⟩
  have hb := (h.2.1 ⟨"k", [⟨"ab".data, none⟩]⟩ rfl
    (by simp [trackerInit])).1 ⟨rfl, rfl⟩
  refine ⟨hb.1, ?_⟩
  rw [hb.2]
  decide

theorem truncOne_eq : Agent.truncOne = Observer.truncOne :=
  funext fun _ => rfl

theorem cap_eq : Agent.truncOne = specCapMessage :=
  funext fun _ => rfl

theorem truncGo_eq (mx : Nat) : ∀ (l : List Message) (t : Nat),
    Agent.truncGo mx l t = Observer.truncGo mx l t
  | [], _ => rfl
  | m :: ms, t => by
    simp only [Agent.truncGo, Observer.truncGo, truncOne_eq]
    rw [truncGo_eq mx ms]

theorem specTotalChars_cons (m : Message) (l : List Message) :
    specTotalChars (m :: l) = m.content.length + specTotalChars l := by
  simp [specTotalChars]

theorem specTotalChars_reverse (l : List Message) :
    specTotalChars l.reverse = specTotalChars l := by
  simp [specTotalChars, List.sum_reverse]

theorem takeFit_all : ∀ (l : List Message) (b : Nat),
    specTotalChars l ≤ b → takeFit l b = l
  | [], _, _ => rfl
  | m :: ms, b, h => by
    rw [specTotalChars_cons] at h
    simp only [takeFit]
    rw [if_neg (by omega)]
    rw [takeFit_all ms (b - m.content.length) (by omega)]

theorem takeFit_append_le : ∀ (r q : List Message) (b : Nat),
    specTotalChars r ≤ b →
    takeFit (r ++ q) b = r ++ takeFit q (b - specTotalChars r)
  | [], q, b, _ => by simp [specTotalChars]
  | m :: r, q, b, h => by
    rw [specTotalChars_cons] at h
    simp only [List.cons_append, takeFit, List.append_eq]
    rw [if_neg (by omega)]
    rw [takeFit_append_le r q (b - m.content.length) (by omega)]
    simp [List.cons_append, Nat.sub_sub, specTotalChars_cons]

theorem takeFit_append_gt : ∀ (r q : List Message) (b : Nat),
    b < specTotalChars r → takeFit (r ++ q) b = takeFit r b
  | [], _, b, h => by simp [specTotalChars] at h
  | m :: r, q, b, h => by
    rw [specTotalChars_cons] at h
    simp only [List.cons_append, takeFit, List.append_eq]
    by_cases hm : b < m.content.length
    · rw [if_pos hm, if_pos hm]
    · rw [if_neg hm, if_neg hm]
      rw [takeFit_append_gt r q (b - m.content.length) (by omega)]

theorem spec_fit_all (l : List Message) (b : Nat)
    (h : specTotalChars l ≤ b) : specLongestFitSuffix l b = l := by
  cases l with
  | nil => rfl
  | cons m t =>
    simp only [specLongestFitSuffix]
    rw [if_pos h]

theorem takeFit_rev : ∀ (l : List Message) (b : Nat),
    (takeFit l.reverse b).reverse = specLongestFitSuffix l b
  | [], _ => rfl
  | x :: xs, b => by
    by_cases h : specTotalChars (x :: xs) ≤ b
    · have hr : specTotalChars ((x :: xs).reverse) ≤ b := by
        rw [specTotalChars_reverse]
        exact h
      rw [takeFit_all _ _ hr, List.reverse_reverse, spec_fit_all _ _ h]
    · simp only [List.reverse_cons, specLongestFitSuffix]
      rw [if_neg h]
      by_cases h2 : specTotalChars xs ≤ b
      · rw [takeFit_append_le xs.reverse [x] b
          (by rw [specTotalChars_reverse]; exact h2)]
        have hx : b - specTotalChars xs.reverse < x.content.length := by
          rw [specTotalChars_reverse]
          rw [specTotalChars_cons] at h
          omega
        simp only [takeFit]
        rw [if_pos hx]
        rw [List.append_nil, List.reverse_reverse, spec_fit_all xs b h2]
      · rw [takeFit_append_gt xs.reverse [x] b
          (by rw [specTotalChars_reverse]; omega)]
        exact takeFit_rev xs b

theorem truncGo_takeFit (mx : Nat) : ∀ (l : List Message) (t : Nat), t ≤ mx →
    Agent.truncGo mx l t = takeFit (l.map Agent.truncOne) (mx - t)
  | [], _, _ => rfl
  | m :: ms, t, h => by
    simp only [Agent.truncGo, List.map_cons, takeFit]
    by_cases hc : mx < t + (Agent.truncOne m).content.length
    · rw [if_pos hc, if_pos (by omega)]
    · rw [if_neg hc, if_neg (by omega)]
      rw [truncGo_takeFit mx ms (t + (Agent.truncOne m).content.length)
        (by omega)]
      have harith : mx - (t + (Agent.truncOne m).content.length) =
          (mx - t) - (Agent.truncOne m).content.length := by omega
      rw [harith]

/-- Claim C10: the two `truncate_messages` copies in agent.py and observer.py
are extensionally equal at the default 30000-character budget, and both
compute the longest suffix of the per-message-capped input that fits the
budget (cap: contents over 2000 characters are cut to 2000 plus an
ellipsis), preserving order. -/
theorem c10_truncate_messages_equiv (messages : List Message) :
    Agent.truncate_messages messages 30000 =
      Observer.truncate_messages messages 30000 ∧
    Agent.truncate_messages messages 30000 =
      spec_truncate_messages messages 30000 := by
  constructor
  · simp only [Agent.truncate_messages, Observer.truncate_messages,
      truncGo_eq]
  · simp only [Agent.truncate_messages, spec_truncate_messages]
    rw [truncGo_takeFit 30000 messages.reverse 0 (by omega)]
    rw [Nat.sub_zero, List.map_reverse, takeFit_rev, cap_eq]

theorem charValidNat (c : Char) :
    c.toNat < 0xD800 ∨ (0xDFFF < c.toNat ∧ c.toNat < 0x110000) := by
  rcases c.valid with h | ⟨h1, h2⟩
  · left
    exact h
  · right
    exact ⟨h1, h2⟩

set_option maxRecDepth 8000 in
theorem utf8_points_cons (c : Char) (bs : List Nat) :
    utf8DecodePoints (utf8EncodeChar c ++ bs) =
      c.toNat :: utf8DecodePoints bs := by
  have hv := charValidNat c
  have hlt : c.toNat < 0x110000 := by rcases hv with h | ⟨_, h⟩ <;> omega
  by_cases h1 : c.toNat < 0x80
  · have henc : utf8EncodeChar c = [c.toNat] := by
      simp only [utf8EncodeChar]
      rw [if_pos h1]
    rw [henc]
    simp only [List.cons_append, List.nil_append]
    rw [utf8DecodePoints.eq_def]
    dsimp only
    rw [if_pos h1]
  · by_cases h2 : c.toNat < 0x800
    · have henc : utf8EncodeChar c =
          [0xC0 + c.toNat / 0x40, 0x80 + c.toNat % 0x40] := by
        simp only [utf8EncodeChar]
        rw [if_neg h1, if_pos h2]
      rw [henc]
      simp only [List.cons_append, List.nil_append]
      rw [utf8DecodePoints.eq_def]
      dsimp only
      rw [if_neg (by omega), if_neg (by omega), if_pos (by omega)]
      rw [if_pos (show isCont (0x80 + c.toNat % 0x40) = true by
        simp only [isCont, Bool.and_eq_true, decide_eq_true_eq]
        omega)]
      congr 1
      omega
    · by_cases h3 : c.toNat < 0x10000
      · have henc : utf8EncodeChar c =
            [0xE0 + c.toNat / 0x1000, 0x80 + c.toNat / 0x40 % 0x40,
              0x80 + c.toNat % 0x40] := by
          simp only [utf8EncodeChar]
          rw [if_neg h1, if_neg h2, if_pos h3]
        rw [henc]
        simp only [List.cons_append, List.nil_append]
        rw [utf8DecodePoints.eq_def]
        dsimp only
        rw [if_neg (by omega), if_neg (by omega), if_neg (by omega),
          if_pos (by omega)]
        rw [if_pos (show
            (isCont (0x80 + c.toNat / 0x40 % 0x40) &&
              (decide (0xE0 + c.toNat / 0x1000 ≠ 0xE0) ||
                decide (0xA0 ≤ 0x80 + c.toNat / 0x40 % 0x40)) &&
              (decide (0xE0 + c.toNat / 0x1000 ≠ 0xED) ||
                decide (0x80 + c.toNat / 0x40 % 0x40 < 0xA0))) = true by
          simp only [isCont, Bool.and_eq_true, Bool.or_eq_true,
            decide_eq_true_eq]
          omega)]
        rw [if_pos (show isCont (0x80 + c.toNat % 0x40) = true by
          simp only [isCont, Bool.and_eq_true, decide_eq_true_eq]
          omega)]
        congr 1
        omega
      · have henc : utf8EncodeChar c =
            [0xF0 + c.toNat / 0x40000, 0x80 + c.toNat / 0x1000 % 0x40,
              0x80 + c.toNat / 0x40 % 0x40, 0x80 + c.toNat % 0x40] := by
          simp only [utf8EncodeChar]
          rw [if_neg h1, if_neg h2, if_neg h3]
        rw [henc]
        simp only [List.cons_append, List.nil_append]
        rw [utf8DecodePoints.eq_def]
        dsimp only
        rw [if_neg (by omega), if_neg (by omega), if_neg (by omega),
          if_neg (by omega), if_pos (by omega)]
        rw [if_pos (show
            (isCont (0x80 + c.toNat / 0x1000 % 0x40) &&
              (decide (0xF0 + c.toNat / 0x40000 ≠ 0xF0) ||
                decide (0x90 ≤ 0x80 + c.toNat / 0x1000 % 0x40)) &&
              (decide (0xF0 + c.toNat / 0x40000 ≠ 0xF4) ||
                decide (0x80 + c.toNat / 0x1000 % 0x40 < 0x90))) = true by
          simp only [isCont, Bool.and_eq_true, Bool.or_eq_true,
            decide_eq_true_eq]
          omega)]
        rw [if_pos (show isCont (0x80 + c.toNat / 0x40 % 0x40) = true by
          simp only [isCont, Bool.and_eq_true, decide_eq_true_eq]
          omega)]
        rw [if_pos (show isCont (0x80 + c.toNat % 0x40) = true by
          simp only [isCont, Bool.and_eq_true, decide_eq_true_eq]
          omega)]
        congr 1
        omega

set_option maxRecDepth 8000 in
theorem utf8_points_cut (c : Char) (k : Nat)
    (hk : k < (utf8EncodeChar c).length) :
    utf8DecodePoints ((utf8EncodeChar c).take k) = [] := by
  have hv := charValidNat c
  have hlt : c.toNat < 0x110000 := by rcases hv with h | ⟨_, h⟩ <;> omega
  have hnil : utf8DecodePoints [] = [] := by rw [utf8DecodePoints.eq_def]
  by_cases h1 : c.toNat < 0x80
  · have henc : utf8EncodeChar c = [c.toNat] := by
      simp only [utf8EncodeChar]
      rw [if_pos h1]
    rw [henc] at hk ⊢
    simp only [List.length_cons, List.length_nil] at hk
    interval_cases k
    · exact hnil
  · by_cases h2 : c.toNat < 0x800
    · have henc : utf8EncodeChar c =
          [0xC0 + c.toNat / 0x40, 0x80 + c.toNat % 0x40] := by
        simp only [utf8EncodeChar]
        rw [if_neg h1, if_pos h2]
      rw [henc] at hk ⊢
      simp only [List.length_cons, List.length_nil] at hk
      interval_cases k
      · exact hnil
      · show utf8DecodePoints [0xC0 + c.toNat / 0x40] = []
        rw [utf8DecodePoints.eq_def]
        dsimp only
        rw [if_neg (by omega), if_neg (by omega), if_pos (by omega)]
    · by_cases h3 : c.toNat < 0x10000
      · have henc : utf8EncodeChar c =
            [0xE0 + c.toNat / 0x1000, 0x80 + c.toNat / 0x40 % 0x40,
              0x80 + c.toNat % 0x40] := by
          simp only [utf8EncodeChar]
          rw [if_neg h1, if_neg h2, if_pos h3]
        rw [henc] at hk ⊢
        simp only [List.length_cons, List.length_nil] at hk
        interval_cases k
        · exact hnil
        · show utf8DecodePoints [0xE0 + c.toNat / 0x1000] = []
          rw [utf8DecodePoints.eq_def]
          dsimp only
          rw [if_neg (by omega), if_neg (by omega), if_neg (by omega),
            if_pos (by omega)]
        · show utf8DecodePoints
            [0xE0 + c.toNat / 0x1000, 0x80 + c.toNat / 0x40 % 0x40] = []
          rw [utf8DecodePoints.eq_def]
          dsimp only
          rw [if_neg (by omega), if_neg (by omega), if_neg (by omega),
            if_pos (by omega)]
          rw [if_pos (show
              (isCont (0x80 + c.toNat / 0x40 % 0x40) &&
                (decide (0xE0 + c.toNat / 0x1000 ≠ 0xE0) ||
                  decide (0xA0 ≤ 0x80 + c.toNat / 0x40 % 0x40)) &&
                (decide (0xE0 + c.toNat / 0x1000 ≠ 0xED) ||
                  decide (0x80 + c.toNat / 0x40 % 0x40 < 0xA0))) = true by
            simp only [isCont, Bool.and_eq_true, Bool.or_eq_true,
              decide_eq_true_eq]
            omega)]
      · have henc : utf8EncodeChar c =
            [0xF0 + c.toNat / 0x40000, 0x80 + c.toNat / 0x1000 % 0x40,
              0x80 + c.toNat / 0x40 % 0x40, 0x80 + c.toNat % 0x40] := by
          simp only [utf8EncodeChar]
          rw [if_neg h1, if_neg h2, if_neg h3]
        rw [henc] at hk ⊢
        simp only [List.length_cons, List.length_nil] at hk
        interval_cases k
        · exact hnil
        · show utf8DecodePoints [0xF0 + c.toNat / 0x40000] = []
          rw [utf8DecodePoints.eq_def]
          dsimp only
          rw [if_neg (by omega), if_neg (by omega), if_neg (by omega),
            if_neg (by omega), if_pos (by omega)]
        · show utf8DecodePoints
            [0xF0 + c.toNat / 0x40000, 0x80 + c.toNat / 0x1000 % 0x40] = []
          rw [utf8DecodePoints.eq_def]
          dsimp only
          rw [if_neg (by omega), if_neg (by omega), if_neg (by omega),
            if_neg (by omega), if_pos (by omega)]
          rw [if_pos (show
              (isCont (0x80 + c.toNat / 0x1000 % 0x40) &&
                (decide (0xF0 + c.toNat / 0x40000 ≠ 0xF0) ||
                  decide (0x90 ≤ 0x80 + c.toNat / 0x1000 % 0x40)) &&
                (decide (0xF0 + c.toNat / 0x40000 ≠ 0xF4) ||
                  decide (0x80 + c.toNat / 0x1000 % 0x40 < 0x90))) = true by
            simp only [isCont, Bool.and_eq_true, Bool.or_eq_true,
              decide_eq_true_eq]
            omega)]
        · show utf8DecodePoints
            [0xF0 + c.toNat / 0x40000, 0x80 + c.toNat / 0x1000 % 0x40,
              0x80 + c.toNat / 0x40 % 0x40] = []
          rw [utf8DecodePoints.eq_def]
          dsimp only
          rw [if_neg (by omega), if_neg (by omega), if_neg (by omega),
            if_neg (by omega), if_pos (by omega)]
          rw [if_pos (show
              (isCont (0x80 + c.toNat / 0x1000 % 0x40) &&
                (decide (0xF0 + c.toNat / 0x40000 ≠ 0xF0) ||
                  decide (0x90 ≤ 0x80 + c.toNat / 0x1000 % 0x40)) &&
                (decide (0xF0 + c.toNat / 0x40000 ≠ 0xF4) ||
                  decide (0x80 + c.toNat / 0x1000 % 0x40 < 0x90))) = true by
            simp only [isCont, Bool.and_eq_true, Bool.or_eq_true,
              decide_eq_true_eq]
            omega)]
          rw [if_pos (show isCont (0x80 + c.toNat / 0x40 % 0x40) = true by
            simp only [isCont, Bool.and_eq_true, decide_eq_true_eq]
            omega)]

theorem utf8_decode_take : ∀ (s : Str) (cap : Nat),
    utf8DecodePoints ((utf8Encode s).take cap) =
      (utf8Keep s cap).map Char.toNat
  | [], cap => by
    simp only [utf8Encode, List.take_nil, utf8Keep, List.map_nil]
    rw [utf8DecodePoints.eq_def]
  | c :: s, cap => by
    simp only [utf8Encode, utf8Keep]
    rw [List.take_append_eq_append_take]
    by_cases h : (utf8EncodeChar c).length ≤ cap
    · rw [List.take_of_length_le h, utf8_points_cons, if_pos h]
      simp only [List.map_cons]
      rw [utf8_decode_take s (cap - (utf8EncodeChar c).length)]
    · rw [if_neg h]
      rw [show cap - (utf8EncodeChar c).length = 0 by omega]
      rw [List.take_zero, List.append_nil]
      rw [utf8_points_cut c cap (by omega)]
      rfl

theorem utf8Keep_prefix_of : ∀ (s : Str) (cap : Nat),
    ∃ t, utf8Keep s cap ++ t = s
  | [], _ => ⟨[], rfl⟩
  | c :: s, cap => by
    simp only [utf8Keep]
    by_cases h : (utf8EncodeChar c).length ≤ cap
    · rw [if_pos h]
      obtain ⟨t, ht⟩ := utf8Keep_prefix_of s (cap - (utf8EncodeChar c).length)
      exact ⟨t, by rw [List.cons_append, ht]⟩
    · rw [if_neg h]
      exact ⟨c :: s, rfl⟩

theorem utf8Size_cons (c : Char) (s : Str) :
    utf8Size (c :: s) = (utf8EncodeChar c).length + utf8Size s := by
  simp [utf8Size, utf8Encode]

theorem utf8Keep_size : ∀ (s : Str) (cap : Nat),
    utf8Size (utf8Keep s cap) ≤ cap
  | [], cap => by simp [utf8Keep, utf8Size, utf8Encode]
  | c :: s, cap => by
    simp only [utf8Keep]
    by_cases h : (utf8EncodeChar c).length ≤ cap
    · rw [if_pos h]
      rw [utf8Size_cons]
      have := utf8Keep_size s (cap - (utf8EncodeChar c).length)
      omega
    · rw [if_neg h]
      simp [utf8Size, utf8Encode]

theorem map_ofNat_toNat : ∀ l : Str,
    (l.map Char.toNat).map Char.ofNat = l
  | [] => rfl
  | c :: l => by
    simp only [List.map_cons, Char.ofNat_toNat]
    rw [map_ofNat_toNat l]

/-- Claim C2: the index content produced by `summarize_index`'s cap
enforcement has UTF-8 encoded size at most `max_index_size`, is a
whole-character run of the stripped response from its start (no multi-byte
character is split at the truncation boundary, even when that leaves fewer
bytes than the cap), and equals the stripped response whenever that already
fits the cap. -/
theorem c2_index_cap (r : Str) (cap : Nat) :
    ∃ out, summarize_index_cap (some r) cap = some out ∧
      utf8Size out ≤ cap ∧ (∃ t, out ++ t = pyStrip r) ∧
      (utf8Size (pyStrip r) ≤ cap → out = pyStrip r) := by
  by_cases h : cap < utf8Size (pyStrip r)
  · refine ⟨utf8Keep (pyStrip r) cap, ?_, utf8Keep_size _ _,
      utf8Keep_prefix_of _ _, fun hfit => absurd hfit (by omega)⟩
    simp only [summarize_index_cap]
    rw [if_pos h]
    simp only [utf8DecodeIgnore]
    rw [utf8_decode_take, map_ofNat_toNat]
  · refine ⟨pyStrip r, ?_, by omega, ⟨[], List.append_nil _⟩, fun _ => rfl⟩
    simp only [summarize_index_cap]
    rw [if_neg h]

/-- Claim C2 witness: a response that fits the cap is persisted stripped
and unchanged. -/
theorem c2_witness :
    summarize_index_cap (some " ab ".data) 2 = some "ab".data := by
  obtain ⟨out, heq, _, _, hfit⟩ := c2_index_cap " ab ".data 2
  have hstrip : pyStrip " ab ".data = "ab".data := by decide
  have hout : out = "ab".data := by
    rw [hfit (by rw [hstrip]; decide), hstrip]
  rw [heq, hout]
